import Mathlib

/-!
Shallow embedding of `kicad_unified_bom_xyrs.py`, a KiCad BOM + XYRS
generator that joins netlist component records with board placement
records, filters them, and writes delimited output.

Modelling conventions:
* Python dictionaries are association lists (`List (String × _)`) with
  first-match lookup (`alistGet`) and in-place update (`alistSet`).
* Python dynamic values are the `PyVal` sum type; Python floats are exact
  rationals.
* `re.match` is a Brzozowski-derivative matcher accepting a string iff the
  pattern matches some prefix (anchored at the start, unanchored at the
  end, case-sensitive), exactly the semantics of `re.match` truthiness.
* The two external loaders (netlist reader, board reader) are out of
  scope; their outputs are the `Component` and `Module` records consumed
  by the merge pipeline.
-/

namespace KicadBom

/-- A Python value as it occurs in this program: a string, an int, a float,
or a one-element tuple holding a float (the latter arises from the trailing
comma in `rot = module.GetOrientation()/10.0,` at line 157). -/
inductive PyVal where
  | str : String → PyVal
  | int : Int → PyVal
  | float : ℚ → PyVal
  | tup1float : ℚ → PyVal
  deriving DecidableEq, Repr

/-- First-match lookup in an association list: `d[k]` / `k in d`. -/
def alistGet {α : Type} : List (String × α) → String → Option α
  | [], _ => none
  | (k', v') :: rest, k => if k' = k then some v' else alistGet rest k

/-- `d[k] = v`: replace the first binding of `k`, or append a new one. -/
def alistSet {α : Type} : List (String × α) → String → α → List (String × α)
  | [], k, v => [(k, v)]
  | (k', v') :: rest, k, v =>
      if k' = k then (k, v) :: rest else (k', v') :: alistSet rest k v

/-- A Python dict from field name to value (one record). -/
abbrev PyDict := List (String × PyVal)

/-- The global `db` mapping reference → record. -/
abbrev Db := List (String × PyDict)

/-- Python `int()` applied to a float: truncation toward zero. -/
def truncQ (q : ℚ) : Int := if 0 ≤ q then ⌊q⌋ else ⌈q⌉

/-- Command-line arguments relevant to the merge (lines 81-88). -/
structure Args where
  output_format : Option String
  metric : Bool

/-- `args.output_format == 'macrofab'`. -/
def isMacrofab (args : Args) : Bool := args.output_format = some "macrofab"

/-- A netlist component as consumed through the `kicad_netlist_reader`
accessors `getRef`, `getValue`, `getDatasheet`, `getFootprint` and
`getField`. -/
structure Component where
  ref : String
  value : String
  datasheet : String
  footprint : String
  field : String → String

/-- A board module as consumed through the `pcbnew` accessors
`GetAttributes`, `GetCenter`, `GetOrientation`, `GetFootprintRect`,
`IsFlipped`, `GetFPID`, `GetReference`. -/
structure Module where
  attributes : Int
  centerX : Int
  centerY : Int
  orientation : Int
  rectHeight : Int
  rectWidth : Int
  flipped : Bool
  libNickname : String
  footprintName : String
  ref : String

/-- `MODULE_ATTR_T` (lines 65-68). -/
def MOD_DEFAULT : Int := 0

/-- `MOD_CMS = 1`: normal, to-be-inserted. -/
def MOD_CMS : Int := 1

/-- `MOD_VIRTUAL = 2`. -/
def MOD_VIRTUAL : Int := 2

/-- Python string `<`: lexicographic comparison of the code-point
sequences. -/
def charsLtB : List Char → List Char → Bool
  | [], [] => false
  | [], _ :: _ => true
  | _ :: _, [] => false
  | a :: as, b :: bs => if a = b then charsLtB as bs else decide (a < b)

/-- Python `a < b` on strings. -/
def strLtB (a b : String) : Bool := charsLtB a.toList b.toList

/-- Python `a <= b` on strings (total order, so `¬(b < a)`). -/
def strLeB (a b : String) : Bool := !strLtB b a

/-- Insert into a sorted list, keeping earlier elements first on ties
(stable, as Python sort is). -/
def insertBy {α : Type} (le : α → α → Bool) (a : α) : List α → List α
  | [] => [a]
  | b :: l => if le a b then a :: b :: l else b :: insertBy le a l

/-- Stable insertion sort with a boolean comparator (Python `sorted`). -/
def sortBy {α : Type} (le : α → α → Bool) : List α → List α
  | [] => []
  | a :: l => insertBy le a (sortBy le l)

/-- The three primary fields removed from the column set (line 106). -/
def primaryFields : List String := ["Reference", "Value", "Description"]

/-- Lines 105-109: `columnset = compfields | partfields` minus the primary
fields; `columns = ['Reference', 'Value', 'Description'] + sorted(columnset)`.
Set union is modelled as deduplicated concatenation; `sorted` as a stable
sort under the lexicographic string order. -/
def columnsOf (compfields partfields : List String) : List String :=
  let columnset := ((compfields ++ partfields).dedup).filter fun f => f ∉ primaryFields
  primaryFields ++ sortBy strLeB columnset

/-- The component seeding loop body (lines 111-130): the fixed five
entries, then `for field in columns[7:]: data[field] = c.getField(field)`,
then the `data['Footprint'] = c.getFootprint()` override. -/
def seedComponent (columns : List String) (c : Component) : PyDict :=
  let data : PyDict :=
    [("Reference", .str c.ref),
     ("Value", .str c.value),
     ("Datasheet", .str c.datasheet),
     ("Description", .str (c.field "Description")),
     ("Config", .str (c.field "Config"))]
  let data := (columns.drop 7).foldl (fun d f => alistSet d f (.str (c.field f))) data
  alistSet data "Footprint" (.str c.footprint)

/-- The whole component loop: `db[ref] = data` for each component. -/
def seedDb (columns : List String) (components : List Component) : Db :=
  components.foldl (fun db c => alistSet db c.ref (seedComponent columns c)) []

/-- The placement data dict built for one module (lines 156-203). -/
def moduleData (args : Args) (m : Module) : PyDict :=
  let pos_x : ℚ := m.centerX
  let pos_y : ℚ := m.centerY
  let x_size0 : ℚ := m.rectHeight
  let y_size0 : ℚ := m.rectWidth
  let x_size : ℚ := if x_size0 < y_size0 then y_size0 else x_size0
  let y_size : ℚ := if x_size0 < y_size0 then x_size0 else y_size0
  let side : PyVal :=
    if isMacrofab args then .int (if m.flipped then 2 else 1)
    else .str (if m.flipped then "bottom" else "top")
  let fp : String := m.libNickname ++ ":" ++ m.footprintName
  let scaling_factor : ℚ :=
    if isMacrofab args && args.metric then 1000000 * (254 / 10000) else 1000000
  let origin_offset : ℚ × ℚ :=
    if isMacrofab args then (39371 / 10, -39371 / 10) else (0, 0)
  let coord_polarity : ℚ × ℚ := (1, -1)
  let rot : PyVal :=
    if isMacrofab args then .int (truncQ ((m.orientation : ℚ) / 10))
    else .tup1float ((m.orientation : ℚ) / 10)
  [("Reference", .str m.ref),
   ("PosX", .float (coord_polarity.1 * pos_x / scaling_factor - origin_offset.1)),
   ("PosY", .float (coord_polarity.2 * pos_y / scaling_factor - origin_offset.2)),
   ("Rotation", rot),
   ("Side", side),
   ("Type", .int 1),
   ("XSize", .float (x_size / scaling_factor)),
   ("YSize", .float (y_size / scaling_factor)),
   ("Populate", .int 1),
   ("Footprint", .str fp)]

/-- One iteration of the module loop (lines 151-213): skip unless the
attributes equal `MOD_CMS`; skip with a warning when the reference is not
in `db`; otherwise `db[ref][key] = value` for every item of the module
data dict. -/
def mergeOne (args : Args) (db : Db) (m : Module) : Db :=
  if m.attributes ≠ MOD_CMS then db
  else
    let data := moduleData args m
    match alistGet db m.ref with
    | none => db
    | some rec0 => alistSet db m.ref (data.foldl (fun r kv => alistSet r kv.1 kv.2) rec0)

/-- The whole module loop. -/
def mergeAll (args : Args) (db : Db) (modules : List Module) : Db :=
  modules.foldl (mergeOne args) db

/-! ### Regular expressions

A small regex language covering the patterns of the `prune` table, with
Brzozowski-derivative matching.  `anychar` is Python `.`: any character
except a newline. -/

inductive Regex where
  | void
  | emptystr
  | char : Char → Regex
  | anychar
  | alt : Regex → Regex → Regex
  | cat : Regex → Regex → Regex
  | star : Regex → Regex
  deriving DecidableEq, Repr

/-- Does the regex accept the empty string? -/
def nullable : Regex → Bool
  | .void => false
  | .emptystr => true
  | .char _ => false
  | .anychar => false
  | .alt r1 r2 => nullable r1 || nullable r2
  | .cat r1 r2 => nullable r1 && nullable r2
  | .star _ => true

/-- Brzozowski derivative of a regex with respect to one character. -/
def derivStep : Regex → Char → Regex
  | .void, _ => .void
  | .emptystr, _ => .void
  | .char c, a => if a = c then .emptystr else .void
  | .anychar, a => if a = Char.ofNat 10 then .void else .emptystr
  | .alt r1 r2, a => .alt (derivStep r1 a) (derivStep r2 a)
  | .cat r1 r2, a =>
      if nullable r1 then .alt (.cat (derivStep r1 a) r2) (derivStep r2 a)
      else .cat (derivStep r1 a) r2
  | .star r, a => .cat (derivStep r a) (.star r)

/-- Whole-string acceptance via iterated derivatives. -/
def fullmatch (r : Regex) (cs : List Char) : Bool := nullable (cs.foldl derivStep r)

/-- `re.match(r, s)` truthiness: the pattern matches some prefix of `s`
(anchored at the start, unanchored at the end). -/
def reMatch (r : Regex) (s : String) : Bool := s.toList.inits.any (fullmatch r)

/-- Concatenation of literal characters. -/
def lit (s : String) : Regex := s.toList.foldr (fun c r => .cat (.char c) r) .emptystr

/-- AST of the combined reference pattern string `"(TP.*)|(MECH.*)"` built
at line 252 from `prune['ref'] = ['TP.*', 'MECH.*']` (grouping parentheses
do not affect acceptance). -/
def ref_combined : Regex :=
  .alt (.cat (lit "TP") (.star .anychar)) (.cat (lit "MECH") (.star .anychar))

/-- AST of the combined footprint pattern string `"(.*NetTie.*)"` built at
line 253 from `prune['footprint'] = ['.*NetTie.*']`. -/
def footprint_combined : Regex :=
  .cat (.star .anychar) (.cat (lit "NetTie") (.star .anychar))

/-- Is the first list a leading segment of the second? -/
def leadsChars : List Char → List Char → Bool
  | [], _ => true
  | _ :: _, [] => false
  | a :: as, b :: bs => a = b && leadsChars as bs

/-- Python `pat in s` on strings: `pat` occurs contiguously in `s`. -/
def hasSubstrChars (pat : List Char) : List Char → Bool
  | [] => leadsChars pat []
  | b :: bs => leadsChars pat (b :: bs) || hasSubstrChars pat bs

/-- The prune-loop deletion condition (lines 255-262): `Config` contains
`'DNF'`, or the reference matches the reference patterns, or the record's
`Footprint` matches the footprint patterns.  In this program `Config` and
`Footprint` are only ever bound to strings (lines 119, 128, 179/202), so
`str(value['Config'])` and the `re.match` subject are read off the string
constructor; the other constructors are unreachable there. -/
def pruneRecord (key : String) (value : PyDict) : Bool :=
  (match alistGet value "Config" with
   | some (.str s) => hasSubstrChars "DNF".toList s.toList
   | _ => false)
  || reMatch ref_combined key
  || (match alistGet value "Footprint" with
      | some (.str s) => reMatch footprint_combined s
      | _ => false)

/-- The prune loop: iterate over a snapshot of the items and delete every
record meeting the condition (the conditions of distinct records are
independent, so this is a filter). -/
def pruneDb (db : Db) : Db := db.filter fun p => !pruneRecord p.1 p.2

/-! ### Write stage -/

/-- Key order used by `sorted(db.items())`: since references are unique
keys, tuple comparison is comparison of the reference strings. -/
def keyLeB (p q : String × PyDict) : Bool := strLeB p.1 q.1

/-- `sorted(db.items())`. -/
def sortDb (db : Db) : Db := sortBy keyLeB db

/-- The DISTPN2 fallback applied to one record in the write loop (lines
280-284).  `value['DISTPN2']` and `value['MPN']` raise `KeyError` when the
key is absent; the comparison with `""` is Python equality, false for any
non-string value. -/
def writeOne (value : PyDict) : Except String PyDict :=
  match alistGet value "DISTPN2" with
  | none => .error "KeyError: DISTPN2"
  | some d2 =>
    if d2 = .str "" then
      match alistGet value "DISTPN" with
      | some d => .ok (alistSet value "DISTPN2" d)
      | none =>
        match alistGet value "MPN" with
        | some mpn => .ok (alistSet value "DISTPN2" mpn)
        | none => .error "KeyError: MPN"
    else .ok value

/-- The write loop body over an already-sorted item list: stops with the
exception raised at the first failing record. -/
def writeList : List (String × PyDict) → Except String (List (String × PyDict))
  | [] => .ok []
  | p :: rest =>
    match writeOne p.2 with
    | .error e => .error e
    | .ok r =>
      match writeList rest with
      | .error e => .error e
      | .ok rs => .ok ((p.1, r) :: rs)

/-- The write loop (lines 278-285): records in sorted key order, each with
the DISTPN2 fallback applied. -/
def writeStage (db : Db) : Except String (List (String × PyDict)) := writeList (sortDb db)

/-- Generic output layout (lines 221-233). -/
def pcbng_columns : List String :=
  ["Reference", "Value", "Description", "Footprint", "PosX", "PosY",
   "Rotation", "Side", "MFR", "MPN", "OctopartID", "Datasheet"]

/-- Contract-manufacturer output layout (lines 235-247). -/
def mcfab_columns : List String :=
  ["Reference", "PosX", "PosY", "Rotation", "Side", "Type", "XSize",
   "YSize", "Value", "Footprint", "Populate", "DISTPN2"]

/-- Column list selected by the output format (lines 268-273). -/
def columns_out (args : Args) : List String :=
  if isMacrofab args then mcfab_columns else pcbng_columns

/-- `csv.DictWriter` row projection: declared columns in order, missing
columns emitted as the empty-string restval, extra fields ignored. -/
def projectRow (cols : List String) (value : PyDict) : List PyVal :=
  cols.map fun c => (alistGet value c).getD (.str "")

/-- The emitted data rows: the write loop followed by column projection. -/
def outputRows (args : Args) (db : Db) : Except String (List (List PyVal)) :=
  (writeStage db).map fun l => l.map fun p => projectRow (columns_out args) p.2

/-- The whole merge/filter pipeline on loaded inputs: seed from
components, merge surviving modules, prune. -/
def runPipeline (args : Args) (compfields partfields : List String)
    (components : List Component) (modules : List Module) : Db :=
  pruneDb (mergeAll args (seedDb (columnsOf compfields partfields) components) modules)

/-- Convenience: the field `f` of the record of reference `r`. -/
def getField2 (db : Db) (r f : String) : Option PyVal :=
  (alistGet db r).bind fun v => alistGet v f

/-- Convenience: the payload of a successful `Except`. -/
def exceptOk {α : Type} : Except String α → Option α
  | .ok a => some a
  | .error _ => none

/-- Does a record pass the write loop without a `KeyError`? -/
def distpnOk (value : PyDict) : Bool :=
  match alistGet value "DISTPN2" with
  | none => false
  | some d2 =>
    if d2 = .str "" then (alistGet value "DISTPN").isSome || (alistGet value "MPN").isSome
    else true

/-- Every record of the mapping stores its own key under `Reference`. -/
abbrev RefInv (db : Db) : Prop := ∀ p ∈ db, alistGet p.2 "Reference" = some (.str p.1)

/-! ### Concrete inputs used by the tested properties -/

/-- Generic-format arguments: no `--output-format`, no `--metric`. -/
def argsGen : Args := { output_format := none, metric := false }

/-- Contract-manufacturer arguments: `--output-format macrofab`, non-metric. -/
def argsMac : Args := { output_format := some "macrofab", metric := false }

/-- A component whose netlist footprint is `"CompFP"`. -/
def cC1 : Component :=
  { ref := "U1", value := "V", datasheet := "D", footprint := "CompFP",
    field := fun _ => "" }

/-- A normal/to-be-inserted module for the same reference whose footprint
identifier renders as `"Lib:FP"`. -/
def mC1 : Module :=
  { attributes := 1, centerX := 0, centerY := 0, orientation := 0,
    rectHeight := 0, rectWidth := 0, flipped := false,
    libNickname := "Lib", footprintName := "FP", ref := "U1" }

def dbC1 : Db := mergeAll argsGen (seedDb (columnsOf [] []) [cC1]) [mC1]

/-- A minimal already-seeded mapping holding reference `U1`. -/
def dbSeed1 : Db := [("U1", [("Reference", PyVal.str "U1")])]

/-- The C2 failing input: the component's loaded field union is
`{Reference, Value, Description, MPN}`. -/
def cC2 : Component :=
  { ref := "U1", value := "V", datasheet := "D", footprint := "FP",
    field := fun f => if f = "MPN" then "ABC123" else "" }

def cfC2 : List String := ["Reference", "Value", "Description", "MPN"]

def cC3 : Component :=
  { ref := "U1", value := "V", datasheet := "D", footprint := "FP",
    field := fun _ => "" }

/-- A normal/to-be-inserted module at raw center (10000000, 20000000). -/
def mC3 : Module :=
  { attributes := 1, centerX := 10000000, centerY := 20000000, orientation := 0,
    rectHeight := 0, rectWidth := 0, flipped := false,
    libNickname := "Lib", footprintName := "FP", ref := "U1" }

def dbC3 : Db := mergeAll argsGen (seedDb (columnsOf [] []) [cC3]) [mC3]

/-- Netlist component for reference `U1` carrying a nonempty `DISTPN2`. -/
def cC4 : Component :=
  { ref := "U1", value := "V", datasheet := "D", footprint := "FP",
    field := fun f => if f = "DISTPN2" then "X" else "" }

def cfC4 : List String :=
  ["Reference", "Value", "Description", "A1", "A2", "A3", "A4", "DISTPN2"]

/-- A module for reference `U1` whose mount-type attribute is virtual. -/
def mC4 : Module :=
  { attributes := 2, centerX := 0, centerY := 0, orientation := 0,
    rectHeight := 0, rectWidth := 0, flipped := false,
    libNickname := "Lib", footprintName := "FP", ref := "U1" }

def dbC4 : Db := runPipeline argsGen cfC4 [] [cC4] [mC4]

/-- A mapping holding a test-point reference and a normal reference. -/
def dbC7 : Db := [("TP3", [("Config", PyVal.str "")]), ("U1", [])]

/-- A record with an empty secondary distributor part number, no primary
distributor part number, and manufacturer part number `"ABC123"`. -/
def vC8 : PyDict := [("DISTPN2", PyVal.str ""), ("MPN", PyVal.str "ABC123")]

/-- Two netlist components, delivered in non-sorted reference order. -/
def cC10a : Component :=
  { ref := "R1", value := "V", datasheet := "D", footprint := "FP",
    field := fun f => if f = "DISTPN2" then "X" else "" }

def cC10b : Component :=
  { ref := "C1", value := "V", datasheet := "D", footprint := "FP",
    field := fun f => if f = "DISTPN2" then "X" else "" }

def dbC10 : Db := runPipeline argsGen cfC4 [] [cC10a, cC10b] []

/-- The rows the write stage produces on `dbC10`. -/
def rowsC10 : List (String × PyDict) := (exceptOk (writeStage dbC10)).getD []

/-! ### Association-list lemmas -/

theorem alistGet_alistSet {α : Type} (d : List (String × α)) (k : String) (v : α)
    (k2 : String) :
    alistGet (alistSet d k v) k2 = if k = k2 then some v else alistGet d k2 := by
  induction d with
  | nil => by_cases h : k = k2 <;> simp [alistSet, alistGet, h]
  | cons p rest ih =>
    obtain ⟨k1, v1⟩ := p
    by_cases h1 : k1 = k
    · subst h1
      by_cases h2 : k1 = k2 <;> simp [alistSet, alistGet, h2]
    · by_cases h2 : k1 = k2
      · have hk : ¬k = k2 := fun h => h1 (h2.trans h.symm)
        have hk2 : ¬k2 = k := fun h => hk h.symm
        simp [alistSet, alistGet, h1, h2, hk, hk2]
      · simp [alistSet, alistGet, h1, h2, ih]

theorem alistGet_alistSet_self {α : Type} (d : List (String × α)) (k : String) (v : α) :
    alistGet (alistSet d k v) k = some v := by
  simp [alistGet_alistSet]

theorem alistGet_alistSet_ne {α : Type} (d : List (String × α)) (k : String) (v : α)
    (k2 : String) (h : k ≠ k2) :
    alistGet (alistSet d k v) k2 = alistGet d k2 := by
  simp [alistGet_alistSet, h]

theorem mem_alistSet {α : Type} (d : List (String × α)) (k : String) (v : α)
    (p : String × α) (hp : p ∈ alistSet d k v) : p ∈ d ∨ p = (k, v) := by
  induction d with
  | nil => simpa [alistSet] using hp
  | cons q rest ih =>
    obtain ⟨k1, v1⟩ := q
    by_cases h1 : k1 = k
    · simp only [alistSet, if_pos h1] at hp
      rcases List.mem_cons.mp hp with h | h
      · exact Or.inr h
      · exact Or.inl (List.mem_cons_of_mem _ h)
    · simp only [alistSet, if_neg h1] at hp
      rcases List.mem_cons.mp hp with h | h
      · exact Or.inl (h ▸ List.mem_cons_self _ _)
      · rcases ih h with h | h
        · exact Or.inl (List.mem_cons_of_mem _ h)
        · exact Or.inr h

theorem mem_map_fst_alistSet {α : Type} (d : List (String × α)) (k : String) (v : α)
    (a : String) :
    a ∈ (alistSet d k v).map Prod.fst ↔ a ∈ d.map Prod.fst ∨ a = k := by
  induction d with
  | nil => simp [alistSet]
  | cons q rest ih =>
    obtain ⟨k1, v1⟩ := q
    by_cases h1 : k1 = k
    · subst h1
      simp [alistSet]
      tauto
    · simp [alistSet, h1, ih]
      tauto

theorem nodup_map_fst_alistSet {α : Type} (d : List (String × α)) (k : String) (v : α)
    (h : (d.map Prod.fst).Nodup) : ((alistSet d k v).map Prod.fst).Nodup := by
  induction d with
  | nil => simp [alistSet]
  | cons q rest ih =>
    obtain ⟨k1, v1⟩ := q
    simp only [List.map_cons, List.nodup_cons] at h
    by_cases h1 : k1 = k
    · subst h1
      simpa [alistSet] using h
    · have hset : alistSet ((k1, v1) :: rest) k v = (k1, v1) :: alistSet rest k v := by
        simp [alistSet, h1]
      rw [hset, List.map_cons]
      refine List.nodup_cons.mpr ⟨?_, ih h.2⟩
      intro hmem
      rcases (mem_map_fst_alistSet rest k v k1).mp hmem with hm | hm
      · exact h.1 hm
      · exact h1 hm

theorem map_fst_alistSet_of_mem {α : Type} (d : List (String × α)) (k : String) (v : α)
    (h : (alistGet d k).isSome) :
    (alistSet d k v).map Prod.fst = d.map Prod.fst := by
  induction d with
  | nil => simp [alistGet] at h
  | cons q rest ih =>
    obtain ⟨k1, v1⟩ := q
    by_cases h1 : k1 = k
    · simp [alistSet, h1]
    · simp only [alistGet, if_pos, if_neg h1] at h
      simp [alistSet, h1, ih h]

theorem alistGet_foldl_pairs (l : List (String × PyVal)) (d : PyDict) (k : String)
    (h : ∀ p ∈ l, p.1 ≠ k) :
    alistGet (l.foldl (fun r kv => alistSet r kv.1 kv.2) d) k = alistGet d k := by
  induction l generalizing d with
  | nil => rfl
  | cons q rest ih =>
    simp only [List.foldl_cons]
    rw [ih _ fun p hp => h p (List.mem_cons_of_mem _ hp),
      alistGet_alistSet_ne _ _ _ _ (h q (List.mem_cons_self _ _))]

theorem alistGet_foldl_fields (fields : List String) (g : String → PyVal) (d : PyDict)
    (k : String) (h : k ∉ fields) :
    alistGet (fields.foldl (fun d f => alistSet d f (g f)) d) k = alistGet d k := by
  induction fields generalizing d with
  | nil => rfl
  | cons f rest ih =>
    have hne : f ≠ k := fun hf => h (hf ▸ List.mem_cons_self _ _)
    have hrest : k ∉ rest := fun hr => h (List.mem_cons_of_mem _ hr)
    simp only [List.foldl_cons]
    rw [ih _ hrest, alistGet_alistSet_ne _ _ _ _ hne]

/-! ### Sorting lemmas -/

theorem insertBy_perm {α : Type} (le : α → α → Bool) (a : α) (l : List α) :
    List.Perm (insertBy le a l) (a :: l) := by
  induction l with
  | nil => rfl
  | cons b t ih =>
    by_cases h : le a b = true
    · rw [insertBy, if_pos h]
    · rw [insertBy, if_neg h]
      exact (ih.cons b).trans (List.Perm.swap a b t)

theorem sortBy_perm {α : Type} (le : α → α → Bool) (l : List α) :
    List.Perm (sortBy le l) l := by
  induction l with
  | nil => rfl
  | cons a t ih => exact (insertBy_perm le a (sortBy le t)).trans (ih.cons a)

theorem pairwise_insertBy {α : Type} (le : α → α → Bool)
    (htot : ∀ x y, le x y = true ∨ le y x = true)
    (htrans : ∀ x y z, le x y = true → le y z = true → le x z = true)
    (a : α) (l : List α) (h : l.Pairwise fun x y => le x y = true) :
    (insertBy le a l).Pairwise fun x y => le x y = true := by
  induction l with
  | nil => simp [insertBy]
  | cons b t ih =>
    rcases List.pairwise_cons.mp h with ⟨hb, ht⟩
    by_cases hab : le a b = true
    · rw [insertBy, if_pos hab]
      refine List.pairwise_cons.mpr ⟨?_, h⟩
      intro x hx
      rcases List.mem_cons.mp hx with rfl | hx
      · exact hab
      · exact htrans _ _ _ hab (hb x hx)
    · rw [insertBy, if_neg hab]
      have hba : le b a = true := (htot a b).resolve_left hab
      refine List.pairwise_cons.mpr ⟨?_, ih ht⟩
      intro x hx
      rcases List.mem_cons.mp ((insertBy_perm le a t).mem_iff.mp hx) with rfl | hx
      · exact hba
      · exact hb x hx

theorem pairwise_sortBy {α : Type} (le : α → α → Bool)
    (htot : ∀ x y, le x y = true ∨ le y x = true)
    (htrans : ∀ x y z, le x y = true → le y z = true → le x z = true)
    (l : List α) : (sortBy le l).Pairwise fun x y => le x y = true := by
  induction l with
  | nil => simp [sortBy]
  | cons a t ih => exact pairwise_insertBy le htot htrans a (sortBy le t) ih

/-! ### String-order lemmas -/

theorem charsLtB_asymm (x y : List Char) (h : charsLtB x y = true) :
    charsLtB y x = false := by
  induction x generalizing y with
  | nil =>
    cases y with
    | nil => simp [charsLtB] at h
    | cons b bs => simp [charsLtB]
  | cons a as ih =>
    cases y with
    | nil => simp [charsLtB] at h
    | cons b bs =>
      by_cases hab : a = b
      · subst hab
        simp only [charsLtB, if_pos rfl] at h ⊢
        exact ih bs h
      · have hba : b ≠ a := fun hh => hab hh.symm
        simp only [charsLtB, if_neg hab, if_neg hba, decide_eq_true_eq] at h
        simp only [charsLtB, if_neg hba, decide_eq_false_iff_not]
        exact lt_asymm h

theorem charsLtB_conn (x y : List Char) (hxy : charsLtB x y = false)
    (hyx : charsLtB y x = false) : x = y := by
  induction x generalizing y with
  | nil =>
    cases y with
    | nil => rfl
    | cons b bs => simp [charsLtB] at hxy
  | cons a as ih =>
    cases y with
    | nil => simp [charsLtB] at hyx
    | cons b bs =>
      by_cases hab : a = b
      · subst hab
        simp only [charsLtB, if_pos rfl] at hxy hyx
        rw [ih bs hxy hyx]
      · have hba : b ≠ a := fun hh => hab hh.symm
        simp only [charsLtB, if_neg hab, if_neg hba, decide_eq_false_iff_not] at hxy hyx
        exact absurd (le_antisymm (not_lt.mp hyx) (not_lt.mp hxy)) hab

theorem charsLtB_trans (x y z : List Char) (hxy : charsLtB x y = true)
    (hyz : charsLtB y z = true) : charsLtB x z = true := by
  induction x generalizing y z with
  | nil =>
    cases y with
    | nil => simp [charsLtB] at hxy
    | cons b bs =>
      cases z with
      | nil => simp [charsLtB] at hyz
      | cons c cs => simp [charsLtB]
  | cons a as ih =>
    cases y with
    | nil => simp [charsLtB] at hxy
    | cons b bs =>
      cases z with
      | nil => simp [charsLtB] at hyz
      | cons c cs =>
        by_cases hab : a = b <;> by_cases hbc : b = c
        · subst hab; subst hbc
          simp only [charsLtB, if_pos rfl] at hxy hyz ⊢
          exact ih bs cs hxy hyz
        · subst hab
          simp only [charsLtB, if_pos rfl, if_neg hbc, decide_eq_true_eq] at hxy hyz ⊢
          simp [hbc, hyz]
        · subst hbc
          simp only [charsLtB, if_neg hab, if_pos rfl, decide_eq_true_eq] at hxy hyz ⊢
          simp [hab, hxy]
        · simp only [charsLtB, if_neg hab, if_neg hbc, decide_eq_true_eq] at hxy hyz
          have hac : a < c := lt_trans hxy hyz
          simp [charsLtB, ne_of_lt hac, hac]

theorem strLtB_asymm (a b : String) (h : strLtB a b = true) : strLtB b a = false :=
  charsLtB_asymm _ _ h

theorem strLtB_trans (a b c : String) (h1 : strLtB a b = true) (h2 : strLtB b c = true) :
    strLtB a c = true :=
  charsLtB_trans _ _ _ h1 h2

theorem strLtB_conn (a b : String) (h1 : strLtB a b = false) (h2 : strLtB b a = false) :
    a = b := by
  have hl := charsLtB_conn _ _ h1 h2
  cases a with
  | mk da =>
    cases b with
    | mk db => exact congrArg String.mk hl

theorem strLeB_total (a b : String) : strLeB a b = true ∨ strLeB b a = true := by
  unfold strLeB
  cases h : strLtB b a with
  | false => left; rfl
  | true => right; rw [strLtB_asymm b a h]; rfl

theorem strLeB_trans (a b c : String) (h1 : strLeB a b = true) (h2 : strLeB b c = true) :
    strLeB a c = true := by
  unfold strLeB at h1 h2 ⊢
  rw [Bool.not_eq_true'] at h1 h2 ⊢
  cases hca : strLtB c a with
  | false => rfl
  | true =>
    cases hab : strLtB a b with
    | false =>
      rw [strLtB_conn a b hab h1] at hca
      rw [hca] at h2
      cases h2
    | true =>
      rw [strLtB_trans c a b hca hab] at h2
      cases h2

theorem strLtB_of_leB_of_ne (a b : String) (h1 : strLeB a b = true) (h2 : a ≠ b) :
    strLtB a b = true := by
  unfold strLeB at h1
  rw [Bool.not_eq_true'] at h1
  cases hab : strLtB a b with
  | false => exact absurd (strLtB_conn a b hab h1) h2
  | true => rfl

/-! ### Write-stage lemmas -/

theorem writeOne_ok_iff (v : PyDict) :
    (exceptOk (writeOne v)).isSome = true ↔ distpnOk v = true := by
  unfold writeOne distpnOk
  cases h2 : alistGet v "DISTPN2" with
  | none => simp [exceptOk]
  | some d2 =>
    by_cases he : d2 = PyVal.str ""
    · cases hd : alistGet v "DISTPN" with
      | some d => simp [exceptOk, he, hd]
      | none =>
        cases hm : alistGet v "MPN" with
        | some mpn => simp [exceptOk, he, hd, hm]
        | none => simp [exceptOk, he, hd, hm]
    · simp [exceptOk, he]

theorem writeList_ok_iff (l : List (String × PyDict)) :
    (exceptOk (writeList l)).isSome = true ↔ ∀ p ∈ l, distpnOk p.2 = true := by
  induction l with
  | nil => simp [writeList, exceptOk]
  | cons p t ih =>
    rw [writeList]
    cases hw : writeOne p.2 with
    | error e =>
      have h1 : ¬distpnOk p.2 = true := by
        intro hd
        have hh := (writeOne_ok_iff p.2).mpr hd
        rw [hw] at hh
        simp [exceptOk] at hh
      simp only [exceptOk, Option.isSome_none, List.forall_mem_cons]
      constructor
      · intro hh; cases hh
      · intro hh; exact absurd hh.1 h1
    | ok r =>
      have h1 : distpnOk p.2 = true := (writeOne_ok_iff p.2).mp (by rw [hw]; rfl)
      cases hl : writeList t with
      | error e =>
        have h2 : ¬∀ q ∈ t, distpnOk q.2 = true := by
          intro hall
          have hh := ih.mpr hall
          rw [hl] at hh
          simp [exceptOk] at hh
        simp only [exceptOk, Option.isSome_none, List.forall_mem_cons]
        constructor
        · intro hh; cases hh
        · intro hh; exact absurd hh.2 h2
      | ok rs =>
        have h2 : ∀ q ∈ t, distpnOk q.2 = true := ih.mp (by rw [hl]; rfl)
        simp only [exceptOk, Option.isSome_some, List.forall_mem_cons, true_iff]
        exact ⟨h1, h2⟩

theorem writeList_keys (l rows : List (String × PyDict)) (h : writeList l = .ok rows) :
    rows.map Prod.fst = l.map Prod.fst := by
  induction l generalizing rows with
  | nil =>
    rw [writeList] at h
    cases h
    rfl
  | cons p t ih =>
    rw [writeList] at h
    cases hw : writeOne p.2 with
    | error e => rw [hw] at h; cases h
    | ok r =>
      rw [hw] at h
      cases hl : writeList t with
      | error e => rw [hl] at h; cases h
      | ok rs =>
        rw [hl] at h
        cases h
        simp [ih rs hl]

theorem writeOne_get_other (v r : PyDict) (k : String) (hw : writeOne v = .ok r)
    (hk : k ≠ "DISTPN2") : alistGet r k = alistGet v k := by
  unfold writeOne at hw
  split at hw
  · cases hw
  · split at hw
    · split at hw
      · cases hw
        exact alistGet_alistSet_ne _ _ _ _ (Ne.symm hk)
      · split at hw
        · cases hw
          exact alistGet_alistSet_ne _ _ _ _ (Ne.symm hk)
        · cases hw
    · cases hw
      rfl

/-! ### C1 -/

/-- C1 counterexample: component `U1` carries footprint `"CompFP"` while
the matching surviving module derives the footprint string `"Lib:FP"`;
after the merge the record's `Footprint` is the module-derived string, so
the final value does not equal the component's footprint when the two
differ. -/
theorem C1_counterexample :
    cC1.footprint = "CompFP" ∧ mC1.attributes = MOD_CMS ∧
    getField2 dbC1 "U1" "Footprint" = some (.str "Lib:FP") ∧
    PyVal.str "Lib:FP" ≠ PyVal.str "CompFP" := by
  refine ⟨rfl, rfl, by decide, by decide⟩

/-- C1 amended: when a normal/to-be-inserted module's reference is present
in the seeded mapping, the merged record's `Footprint` equals the
module-derived `"<library-nickname>:<footprint-name>"` string — the module
loop overwrites the component's footprint (warning on conflict), so the
component-record footprint survives only for references with no surviving
module. -/
theorem C1_module_footprint_wins (args : Args) (db : Db) (m : Module)
    (hattr : m.attributes = MOD_CMS) (hmem : (alistGet db m.ref).isSome = true) :
    getField2 (mergeOne args db m) m.ref "Footprint"
      = some (.str (m.libNickname ++ ":" ++ m.footprintName)) := by
  obtain ⟨r0, hr0⟩ := Option.isSome_iff_exists.mp hmem
  simp only [mergeOne, hattr, ne_eq, not_true_eq_false, if_false, hr0, getField2,
    moduleData, List.foldl_cons, List.foldl_nil, alistGet_alistSet_self]
  simp [alistGet_alistSet_self]

/-- Witness for C1 amended at a concrete module and mapping. -/
theorem C1_module_footprint_wins_witness :
    mC1.attributes = MOD_CMS ∧ (alistGet dbSeed1 mC1.ref).isSome = true ∧
    getField2 (mergeOne argsGen dbSeed1 mC1) mC1.ref "Footprint"
      = some (.str (mC1.libNickname ++ ":" ++ mC1.footprintName)) :=
  ⟨rfl, by decide, C1_module_footprint_wins argsGen dbSeed1 mC1 rfl (by decide)⟩

/-! ### C2 -/

/-- C2: the field-capture loop iterates `columns[7:]` although `columns`
has only three fixed entries, so the first four alphabetically sorted
extra field names are silently dropped.  At the failing input the extra
field `MPN` belongs to the union minus the three primary fields, yet the
seeded record has no `MPN` entry at all, contradicting the claim that
every such field is captured. -/
theorem C2_first_extras_dropped :
    "MPN" ∈ ((cfC2 ++ []).dedup.filter fun f => f ∉ primaryFields) ∧
    cC2.field "MPN" = "ABC123" ∧
    alistGet (seedComponent (columnsOf cfC2 []) cC2) "MPN" = none := by
  refine ⟨by decide, by decide, by decide⟩

/-! ### C3 -/

/-- C3 counterexample: under the generic output format, the merged record
at raw center (10000000, 20000000) has PosX = +10.0 (the X polarity entry
is +1), not the -10.0 the claim states. -/
theorem C3_counterexample :
    mC3.attributes = MOD_CMS ∧
    getField2 dbC3 "U1" "PosX" = some (.float 10) ∧
    some (PyVal.float 10) ≠ some (PyVal.float (-10)) := by
  refine ⟨rfl, ?_, by norm_num⟩
  norm_num +decide [dbC3, mC3, cC3, argsGen, mergeAll, mergeOne, moduleData, seedDb,
    seedComponent, columnsOf, primaryFields, getField2, isMacrofab, MOD_CMS, sortBy,
    insertBy, List.foldl_cons, List.foldl_nil, alistGet, alistSet]

/-- C3 amended: for that module (mount-type normal/to-be-inserted,
non-metric board, generic output format) the merged record has
PosX = 10.0 and PosY = -20.0: scale 10^6, polarity (+1, -1), no origin
offset. -/
theorem C3_amended :
    mC3.attributes = MOD_CMS ∧
    getField2 dbC3 "U1" "PosX" = some (.float 10) ∧
    getField2 dbC3 "U1" "PosY" = some (.float (-20)) := by
  refine ⟨rfl, ?_, ?_⟩ <;>
  norm_num +decide [dbC3, mC3, cC3, argsGen, mergeAll, mergeOne, moduleData, seedDb,
    seedComponent, columnsOf, primaryFields, getField2, isMacrofab, MOD_CMS, sortBy,
    insertBy, List.foldl_cons, List.foldl_nil, alistGet, alistSet]

/-! ### C4 -/

/-- C4 counterexample: reference `U1` exists in the netlist and its board
module is virtual (`MOD_VIRTUAL`), yet the write stage still emits a row
keyed `U1`, seeded from the netlist record — the whole record is not
absent, only the module-derived placement fields are. -/
theorem C4_counterexample :
    mC4.attributes = MOD_VIRTUAL ∧
    (exceptOk (writeStage dbC4)).map (fun l => l.map Prod.fst) = some ["U1"] ∧
    getField2 dbC4 "U1" "PosX" = none := by
  refine ⟨rfl, by decide, by decide⟩

/-- C4 amended: a module whose attributes differ from `MOD_CMS` is skipped
entirely by the module loop — the mapping is unchanged, so the module
contributes no placement data; the netlist-seeded record of its reference
is untouched (and still reaches the output if it survives pruning). -/
theorem C4_non_normal_module_skipped (args : Args) (db : Db) (m : Module)
    (h : m.attributes ≠ MOD_CMS) : mergeOne args db m = db := by
  simp [mergeOne, h]

/-- Witness for C4 amended at the virtual module. -/
theorem C4_non_normal_module_skipped_witness :
    mC4.attributes ≠ MOD_CMS ∧ mergeOne argsGen dbSeed1 mC4 = dbSeed1 :=
  ⟨by decide, C4_non_normal_module_skipped argsGen dbSeed1 mC4 (by decide)⟩

/-! ### C5 -/

/-- C5: under any non-macrofab output format the module data stores
`Rotation` as the one-element tuple `(orientation/10.0,)` — the value of
the trailing-comma assignment — which is neither a Python int nor a bare
float; only the macrofab branch unwraps it. -/
theorem C5_rotation_is_tuple (args : Args) (m : Module)
    (h : isMacrofab args = false) :
    alistGet (moduleData args m) "Rotation"
      = some (.tup1float ((m.orientation : ℚ) / 10)) ∧
    (∀ n : Int, PyVal.tup1float ((m.orientation : ℚ) / 10) ≠ .int n) ∧
    (∀ q : ℚ, PyVal.tup1float ((m.orientation : ℚ) / 10) ≠ .float q) := by
  refine ⟨?_, fun n => by simp, fun q => by simp⟩
  simp [moduleData, h, alistGet]

/-- Witness for C5 at the generic arguments and a concrete module. -/
theorem C5_rotation_is_tuple_witness :
    isMacrofab argsGen = false ∧
    alistGet (moduleData argsGen mC3) "Rotation"
      = some (.tup1float ((mC3.orientation : ℚ) / 10)) :=
  ⟨rfl, (C5_rotation_is_tuple argsGen mC3 rfl).1⟩

/-! ### C6 -/

/-- C6: the write loop looks up `value['DISTPN2']` (and, when it is the
empty string and no `DISTPN` is present, `value['MPN']`) without guarding,
so a run produces output rows without a key-lookup error exactly when
every surviving record carries `DISTPN2`, and `MPN` whenever the fallback
reaches it; this holds for every output format, including the generic one
whose column layout has no `DISTPN2` column. -/
theorem C6_write_requires_distpn2 (args : Args) (db : Db) :
    (exceptOk (outputRows args db)).isSome = true ↔ ∀ p ∈ db, distpnOk p.2 = true := by
  have hmap : (exceptOk (outputRows args db)).isSome
      = (exceptOk (writeStage db)).isSome := by
    unfold outputRows
    cases writeStage db <;> simp [exceptOk, Except.map]
  rw [hmap]
  unfold writeStage sortDb
  rw [writeList_ok_iff]
  constructor
  · intro h p hp
    exact h p ((sortBy_perm keyLeB db).mem_iff.mpr hp)
  · intro h p hp
    exact h p ((sortBy_perm keyLeB db).mem_iff.mp hp)

/-- C6 instantiated at a concrete mapping: the record of `dbC7` for `U1`
carries no `DISTPN2`, so the run errors for either format. -/
theorem C6_write_requires_distpn2_witness :
    ((exceptOk (outputRows argsGen dbC7)).isSome = true
      ↔ ∀ p ∈ dbC7, distpnOk p.2 = true) ∧
    (exceptOk (outputRows argsGen dbC7)).isSome = false :=
  ⟨C6_write_requires_distpn2 argsGen dbC7, by decide⟩

/-! ### C7 -/

/-- C7: a merged record whose reference matches the combined reference
exclusion pattern `"(TP.*)|(MECH.*)"` — `re.match` semantics: anchored at
the start, unanchored at the end, case-sensitive — is deleted by the prune
loop and reaches neither the surviving mapping nor the written rows; in
particular `"TP3"` matches and `"U1"` does not. -/
theorem C7_ref_exclusion (db : Db) (k : String) (h : reMatch ref_combined k = true) :
    (∀ p ∈ pruneDb db, p.1 ≠ k) ∧
    (∀ rows, writeStage (pruneDb db) = .ok rows → ∀ p ∈ rows, p.1 ≠ k) ∧
    reMatch ref_combined "TP3" = true ∧ reMatch ref_combined "U1" = false := by
  have h1 : ∀ p ∈ pruneDb db, p.1 ≠ k := by
    intro p hp hpk
    have hf := List.of_mem_filter hp
    rw [hpk] at hf
    have hpr : pruneRecord k p.2 = true := by
      unfold pruneRecord
      rw [h]
      simp
    rw [hpr] at hf
    cases hf
  refine ⟨h1, ?_, by decide, by decide⟩
  intro rows hrows p hp hpk
  unfold writeStage at hrows
  have hkeys := writeList_keys _ rows hrows
  have hpmem : p.1 ∈ rows.map Prod.fst := List.mem_map_of_mem Prod.fst hp
  rw [hkeys] at hpmem
  rcases List.mem_map.mp hpmem with ⟨q, hq, hq1⟩
  have hqdb : q ∈ pruneDb db := (sortBy_perm keyLeB (pruneDb db)).mem_iff.mp hq
  exact h1 q hqdb (hq1.trans hpk)

/-- C7 instantiated: `"TP3"` is pruned from a concrete mapping that holds
it. -/
theorem C7_ref_exclusion_witness :
    reMatch ref_combined "TP3" = true ∧ ∀ p ∈ pruneDb dbC7, p.1 ≠ "TP3" :=
  ⟨by decide, (C7_ref_exclusion dbC7 "TP3" (by decide)).1⟩

/-! ### C8 -/

/-- C8: for a record reaching the write loop with `DISTPN2` equal to the
empty string, the record is rewritten so that `DISTPN2` holds the `DISTPN`
value when that field is present, else the `MPN` value; the rewritten
record is what the row is emitted from. -/
theorem C8_distpn2_fallback (v : PyDict) (h : alistGet v "DISTPN2" = some (.str "")) :
    (∀ d, alistGet v "DISTPN" = some d →
      writeOne v = .ok (alistSet v "DISTPN2" d) ∧
      alistGet (alistSet v "DISTPN2" d) "DISTPN2" = some d) ∧
    (alistGet v "DISTPN" = none → ∀ mpn, alistGet v "MPN" = some mpn →
      writeOne v = .ok (alistSet v "DISTPN2" mpn) ∧
      alistGet (alistSet v "DISTPN2" mpn) "DISTPN2" = some mpn) := by
  constructor
  · intro d hd
    refine ⟨?_, alistGet_alistSet_self _ _ _⟩
    unfold writeOne
    rw [h]
    simp [hd]
  · intro hd mpn hm
    refine ⟨?_, alistGet_alistSet_self _ _ _⟩
    unfold writeOne
    rw [h]
    simp [hd, hm]

/-- C8 at the spec's example record: empty `DISTPN2`, no `DISTPN`, and
`MPN = "ABC123"` yields `DISTPN2 = "ABC123"`. -/
theorem C8_distpn2_fallback_witness :
    alistGet vC8 "DISTPN2" = some (.str "") ∧
    alistGet vC8 "DISTPN" = none ∧
    alistGet vC8 "MPN" = some (.str "ABC123") ∧
    (writeOne vC8 = .ok (alistSet vC8 "DISTPN2" (.str "ABC123")) ∧
     alistGet (alistSet vC8 "DISTPN2" (.str "ABC123")) "DISTPN2"
       = some (.str "ABC123")) :=
  ⟨by decide, by decide, by decide,
   (C8_distpn2_fallback vC8 (by decide)).2 (by decide) (.str "ABC123") (by decide)⟩

/-! ### C9 -/

/-- C9: for the same normal/to-be-inserted module on a non-metric board,
the contract-manufacturer (macrofab) PosX is the generic PosX minus
3937.1 and the macrofab PosY is the generic PosY minus (-3937.1): the
fixed origin offset (3937.1, -3937.1) is subtracted component-wise, and
nothing else changes in the position computation. -/
theorem C9_macrofab_offset (m : Module) (hattr : m.attributes = MOD_CMS) (gx gy : ℚ)
    (hx : alistGet (moduleData argsGen m) "PosX" = some (.float gx))
    (hy : alistGet (moduleData argsGen m) "PosY" = some (.float gy)) :
    alistGet (moduleData argsMac m) "PosX" = some (.float (gx - 39371 / 10)) ∧
    alistGet (moduleData argsMac m) "PosY" = some (.float (gy - -(39371 / 10))) := by
  have _ := hattr
  simp +decide [moduleData, alistGet, isMacrofab, argsGen, argsMac] at hx hy ⊢
  constructor <;> linarith

/-- C9 at the concrete module of C3: generic (10, -20) becomes macrofab
(10 - 3937.1, -20 + 3937.1). -/
theorem C9_macrofab_offset_witness :
    mC3.attributes = MOD_CMS ∧
    alistGet (moduleData argsGen mC3) "PosX" = some (.float 10) ∧
    alistGet (moduleData argsGen mC3) "PosY" = some (.float (-20)) ∧
    (alistGet (moduleData argsMac mC3) "PosX" = some (.float (10 - 39371 / 10)) ∧
     alistGet (moduleData argsMac mC3) "PosY" = some (.float ((-20) - -(39371 / 10)))) := by
  have h1 : alistGet (moduleData argsGen mC3) "PosX" = some (.float 10) := by
    norm_num +decide [moduleData, alistGet, isMacrofab, argsGen, mC3]
  have h2 : alistGet (moduleData argsGen mC3) "PosY" = some (.float (-20)) := by
    norm_num +decide [moduleData, alistGet, isMacrofab, argsGen, mC3]
  exact ⟨rfl, h1, h2, C9_macrofab_offset mC3 rfl 10 (-20) h1 h2⟩

/-! ### Pipeline key-structure lemmas -/

theorem foldl_seed_keys_nodup (columns : List String) (comps : List Component) (db : Db)
    (hdb : (db.map Prod.fst).Nodup) :
    ((comps.foldl (fun db c => alistSet db c.ref (seedComponent columns c)) db).map
      Prod.fst).Nodup := by
  induction comps generalizing db with
  | nil => exact hdb
  | cons c t ih => exact ih _ (nodup_map_fst_alistSet _ _ _ hdb)

theorem seedDb_keys_nodup (columns : List String) (comps : List Component) :
    ((seedDb columns comps).map Prod.fst).Nodup :=
  foldl_seed_keys_nodup columns comps [] (by simp)

theorem mergeOne_keys (args : Args) (db : Db) (m : Module) :
    (mergeOne args db m).map Prod.fst = db.map Prod.fst := by
  unfold mergeOne
  by_cases ha : m.attributes ≠ MOD_CMS
  · rw [if_pos ha]
  · rw [if_neg ha]
    cases hr0 : alistGet db m.ref with
    | none => rfl
    | some r0 => exact map_fst_alistSet_of_mem _ _ _ (by rw [hr0]; rfl)

theorem mergeAll_keys (args : Args) (db : Db) (mods : List Module) :
    (mergeAll args db mods).map Prod.fst = db.map Prod.fst := by
  induction mods generalizing db with
  | nil => rfl
  | cons m t ih =>
    show (mergeAll args (mergeOne args db m) t).map Prod.fst = db.map Prod.fst
    rw [ih, mergeOne_keys]

theorem runPipeline_keys_nodup (args : Args) (cf pf : List String)
    (comps : List Component) (mods : List Module) :
    ((runPipeline args cf pf comps mods).map Prod.fst).Nodup := by
  unfold runPipeline
  have h1 := seedDb_keys_nodup (columnsOf cf pf) comps
  have h2 := mergeAll_keys args (seedDb (columnsOf cf pf) comps) mods
  have h3 : List.Sublist (pruneDb (mergeAll args (seedDb (columnsOf cf pf) comps) mods))
      (mergeAll args (seedDb (columnsOf cf pf) comps) mods) := List.filter_sublist _
  exact List.Nodup.sublist (h3.map Prod.fst) (h2 ▸ h1)

/-! ### Reference-field invariant lemmas -/

theorem not_primary_mem_drop7 (cf pf : List String) (f : String) (hf : f ∈ primaryFields) :
    f ∉ (columnsOf cf pf).drop 7 := by
  intro hmem
  have h1 : f ∈ sortBy strLeB (((cf ++ pf).dedup).filter fun g => g ∉ primaryFields) := by
    have hdrop : (columnsOf cf pf).drop 7
        = (sortBy strLeB (((cf ++ pf).dedup).filter fun g => g ∉ primaryFields)).drop 4 :=
      rfl
    rw [hdrop] at hmem
    exact List.mem_of_mem_drop hmem
  have h2 := (sortBy_perm strLeB _).mem_iff.mp h1
  have h3 := List.of_mem_filter h2
  simp only [decide_eq_true_eq] at h3
  exact h3 hf

theorem seedComponent_ref (cf pf : List String) (c : Component) :
    alistGet (seedComponent (columnsOf cf pf) c) "Reference" = some (.str c.ref) := by
  simp only [seedComponent]
  rw [alistGet_alistSet_ne _ _ _ _ (by decide)]
  rw [alistGet_foldl_fields ((columnsOf cf pf).drop 7) (fun f => PyVal.str (c.field f)) _ _
    (not_primary_mem_drop7 cf pf _ (by decide))]
  rfl

theorem refInv_foldl_seed (cf pf : List String) (comps : List Component) (db : Db)
    (hdb : RefInv db) :
    RefInv (comps.foldl
      (fun db c => alistSet db c.ref (seedComponent (columnsOf cf pf) c)) db) := by
  induction comps generalizing db with
  | nil => exact hdb
  | cons c t ih =>
    refine ih _ ?_
    intro p hp
    rcases mem_alistSet _ _ _ p hp with h | h
    · exact hdb p h
    · rw [h]
      exact seedComponent_ref cf pf c

theorem refInv_seedDb (cf pf : List String) (comps : List Component) :
    RefInv (seedDb (columnsOf cf pf) comps) :=
  refInv_foldl_seed cf pf comps [] (fun p hp => absurd hp (List.not_mem_nil p))

theorem mergeRec_ref (args : Args) (m : Module) (r0 : PyDict) :
    alistGet ((moduleData args m).foldl (fun r kv => alistSet r kv.1 kv.2) r0) "Reference"
      = some (.str m.ref) := by
  simp +decide [moduleData, List.foldl_cons, List.foldl_nil, alistGet_alistSet]

theorem refInv_mergeOne (args : Args) (db : Db) (m : Module) (h : RefInv db) :
    RefInv (mergeOne args db m) := by
  unfold mergeOne
  by_cases ha : m.attributes ≠ MOD_CMS
  · rw [if_pos ha]; exact h
  · rw [if_neg ha]
    cases hr0 : alistGet db m.ref with
    | none => exact h
    | some r0 =>
      intro p hp
      rcases mem_alistSet _ _ _ p hp with hm | hm
      · exact h p hm
      · rw [hm]
        exact mergeRec_ref args m r0

theorem refInv_mergeAll (args : Args) (db : Db) (mods : List Module) (h : RefInv db) :
    RefInv (mergeAll args db mods) := by
  induction mods generalizing db with
  | nil => exact h
  | cons m t ih =>
    show RefInv (mergeAll args (mergeOne args db m) t)
    exact ih _ (refInv_mergeOne args db m h)

theorem refInv_pruneDb (db : Db) (h : RefInv db) : RefInv (pruneDb db) :=
  fun p hp => h p (List.mem_of_mem_filter hp)

theorem refInv_sortDb (db : Db) (h : RefInv db) : RefInv (sortDb db) :=
  fun p hp => h p ((sortBy_perm keyLeB db).mem_iff.mp hp)

theorem writeList_refInv (l rows : List (String × PyDict))
    (h : ∀ p ∈ l, alistGet p.2 "Reference" = some (.str p.1))
    (hw : writeList l = .ok rows) :
    ∀ p ∈ rows, alistGet p.2 "Reference" = some (.str p.1) := by
  induction l generalizing rows with
  | nil =>
    rw [writeList] at hw
    cases hw
    intro p hp
    cases hp
  | cons q t ih =>
    rw [writeList] at hw
    cases hwq : writeOne q.2 with
    | error e => rw [hwq] at hw; cases hw
    | ok r =>
      rw [hwq] at hw
      cases hl : writeList t with
      | error e => rw [hl] at hw; cases hw
      | ok rs =>
        rw [hl] at hw
        cases hw
        intro p hp
        rcases List.mem_cons.mp hp with rfl | hp
        · show alistGet r "Reference" = some (.str q.1)
          rw [writeOne_get_other q.2 r "Reference" hwq (by decide)]
          exact h q (List.mem_cons_self _ _)
        · exact ih rs (fun p hp => h p (List.mem_cons_of_mem _ hp)) hl p hp

/-! ### Sorted-keys lemmas -/

theorem sortDb_keys_pairwise (db : Db) :
    (sortDb db).Pairwise fun x y => keyLeB x y = true :=
  pairwise_sortBy keyLeB
    (fun x y => strLeB_total x.1 y.1)
    (fun x y z h1 h2 => strLeB_trans x.1 y.1 z.1 h1 h2)
    db

theorem sortDb_keys_strict (db : Db) (h : (db.map Prod.fst).Nodup) :
    ((sortDb db).map Prod.fst).Pairwise fun a b => strLtB a b = true := by
  have hle : ((sortDb db).map Prod.fst).Pairwise fun a b => strLeB a b = true :=
    List.pairwise_map.mpr (sortDb_keys_pairwise db)
  have hnd : ((sortDb db).map Prod.fst).Nodup :=
    ((sortBy_perm keyLeB db).map Prod.fst).nodup_iff.mpr h
  exact hle.imp₂ (fun a b h1 h2 => strLtB_of_leB_of_ne a b h1 h2) hnd

/-! ### C10 -/

/-- C10: however components and modules are delivered, a successful write
stage emits the rows in strictly increasing lexicographic (code-point)
order of the reference string, and each emitted record's `Reference` field
is exactly its reference key. -/
theorem C10_rows_sorted (args : Args) (cf pf : List String) (comps : List Component)
    (mods : List Module) (rows : List (String × PyDict))
    (h : writeStage (runPipeline args cf pf comps mods) = .ok rows) :
    (rows.map Prod.fst).Pairwise (fun a b => strLtB a b = true) ∧
    ∀ p ∈ rows, alistGet p.2 "Reference" = some (.str p.1) := by
  have hkeys : rows.map Prod.fst
      = (sortDb (runPipeline args cf pf comps mods)).map Prod.fst :=
    writeList_keys _ rows h
  constructor
  · rw [hkeys]
    exact sortDb_keys_strict _ (runPipeline_keys_nodup args cf pf comps mods)
  · refine writeList_refInv _ rows ?_ h
    exact refInv_sortDb _
      (refInv_pruneDb _ (refInv_mergeAll args _ mods (refInv_seedDb cf pf comps)))

/-- C10 at a concrete run whose netlist order is `R1` before `C1`: the
emitted order is `C1`, `R1`. -/
theorem C10_rows_sorted_witness :
    writeStage dbC10 = .ok rowsC10 ∧
    ((rowsC10.map Prod.fst).Pairwise (fun a b => strLtB a b = true) ∧
     ∀ p ∈ rowsC10, alistGet p.2 "Reference" = some (.str p.1)) :=
  ⟨rfl, C10_rows_sorted argsGen cfC4 [] [cC10a, cC10b] [] rowsC10 rfl⟩

end KicadBom
